import Mathlib

/-!
Verification of the AgentInventory MCP server
(src/mcp-servers/mcp-agent-inventory/server.py).

The embedding models the two process-global Python dictionaries
(`agent_metadata`, `execution_records`) as insertion-ordered association
lists, Python floats as rationals, nullable fields as `Option`, and
Python `round` as round-half-to-even at a fixed decimal scale.  The
nondeterministic timestamps drawn from `datetime.now()` are passed in as
explicit string parameters.
-/

/-- Association-list lookup, mirroring `k in d` / `d.get(k)` on an
insertion-ordered Python dict. -/
def alistGet {α : Type} (k : String) : List (String × α) → Option α
  | [] => none
  | (k', v) :: rest => if k' = k then some v else alistGet k rest

/-- Association-list write, mirroring `d[k] = v`: updates in place when the
key exists, otherwise appends (Python dicts keep insertion order). -/
def alistSet {α : Type} (k : String) (v : α) : List (String × α) → List (String × α)
  | [] => [(k, v)]
  | (k', v') :: rest =>
    if k' = k then (k', v) :: rest else (k', v') :: alistSet k v rest

/-- Association-list delete, mirroring `del d[k]`. -/
def alistErase {α : Type} (k : String) : List (String × α) → List (String × α)
  | [] => []
  | (k', v') :: rest => if k' = k then rest else (k', v') :: alistErase k rest

/-- Rounding of a rational to the nearest integer with ties to even, the
tie-breaking rule of Python `round`. -/
def roundHalfEven (q : ℚ) : ℤ :=
  let f := ⌊q⌋
  let r := q - (f : ℚ)
  if r < 1 / 2 then f
  else if 1 / 2 < r then f + 1
  else if f % 2 = 0 then f else f + 1

/-- Python `round(q, n)` on ideal (rational) numbers. -/
def pyRound (q : ℚ) (n : ℕ) : ℚ := (roundHalfEven (q * 10 ^ n) : ℚ) / 10 ^ n

/-- Python `int(q)`: truncation toward zero. -/
def truncToward0 (q : ℚ) : ℤ := if 0 ≤ q then ⌊q⌋ else ⌈q⌉

/-- Input model for `record_execution` (the Pydantic `AgentExecution`). -/
structure AgentExecution where
  agent_id : String
  execution_id : Option String := none
  timestamp : Option String := none
  success : Bool := true
  runtime_ms : Option ℚ := none
  input_tokens : Option ℤ := none
  output_tokens : Option ℤ := none
  total_tokens : Option ℤ := none
  cost_usd : Option ℚ := none
  error_message : Option String := none
deriving DecidableEq

/-- A stored execution record: the dict appended to
`execution_records[agent_id]` by `record_execution`. -/
structure ExecRecord where
  execution_id : String
  timestamp : String
  success : Bool
  runtime_ms : Option ℚ
  input_tokens : Option ℤ
  output_tokens : Option ℤ
  total_tokens : Option ℤ
  cost_usd : Option ℚ
  error_message : Option String
deriving DecidableEq

/-- A stored agent metadata entry.  The averages are `none` both when the
Python dict lacks the key and when it stores `None`; the two cases are
observationally identical through `metadata.get(...)`. -/
structure AgentMeta where
  id : String
  description : String
  avg_cost : Option ℚ := none
  avg_latency : Option ℚ := none
deriving DecidableEq

/-- The pair of process-global stores. -/
structure ServerState where
  agent_metadata : List (String × AgentMeta)
  execution_records : List (String × List ExecRecord)
deriving DecidableEq

/-- The state at process start: both dicts empty. -/
def initState : ServerState := ⟨[], []⟩

/-- An `HTTPException` raised by a handler. -/
structure HTTPError where
  status_code : ℕ
  detail : String
deriving DecidableEq

/-- Response model of the usage endpoints (`AgentUsageResponse`). -/
structure AgentUsageResponse where
  total_runs : ℕ
  failures : ℕ
  avg_input_tokens : ℚ
  avg_output_tokens : ℚ
  p50_latency_ms : ℚ
  p95_latency_ms : ℚ
deriving DecidableEq

/-- One entry of the `list_agents` response. -/
structure AgentInfo where
  id : String
  description : String
  avg_cost : Option ℚ
  avg_latency : Option ℚ
deriving DecidableEq

/-- The `{status, message}` confirmation dict. -/
structure StatusMessage where
  status : String
  message : String
deriving DecidableEq

/-- The `{status, message, execution_id}` response of the
`/record_execution` endpoint. -/
structure RecordResponse where
  status : String
  message : String
  execution_id : Option String
deriving DecidableEq

/-- `calculate_percentile` from the source: sorts a copy, takes the
fractional rank `(p/100)*(n-1)`, and linearly interpolates between
adjacent order statistics when the rank is not an integer.  `sorted(data)`
is modelled by insertion sort, which produces the same list (sorting lists
of scalars has a unique result).  `index.is_integer()` is `index.den = 1`
and `int(index)` truncates toward zero. -/
def calculate_percentile (data : List ℚ) (p : ℚ) : ℚ :=
  if data = [] then 0
  else
    let sorted_data := data.insertionSort (· ≤ ·)
    let index : ℚ := (p / 100) * ((sorted_data.length : ℚ) - 1)
    if index.den = 1 then
      sorted_data.getD (truncToward0 index).toNat 0
    else
      let lower := sorted_data.getD (truncToward0 index).toNat 0
      let upper := sorted_data.getD ((truncToward0 index).toNat + 1) 0
      lower + (upper - lower) * (index - ((truncToward0 index : ℤ) : ℚ))

/-- The conditional average writes that `update_agent_averages` performs on
the stored metadata entry: each average is overwritten only when its field
has at least one non-null sample. -/
def updatedMeta (records : List ExecRecord) (m : AgentMeta) : AgentMeta :=
  let costs := records.filterMap (fun r => r.cost_usd)
  let latencies := records.filterMap (fun r => r.runtime_ms)
  { id := m.id, description := m.description,
    avg_cost :=
      if costs = [] then m.avg_cost
      else some (pyRound (costs.sum / (costs.length : ℚ)) 6),
    avg_latency :=
      if latencies = [] then m.avg_latency
      else some (pyRound (latencies.sum / (latencies.length : ℚ)) 2) }

/-- `update_agent_averages` from the source: recomputes the mean of the
non-null `cost_usd` and `runtime_ms` values over the agent's full history
and writes the rounded results (cost to 6 decimals, latency to 2) into
`agent_metadata`, skipping a field with no samples; returns early when the
agent has no records, and writes nothing when the agent has no metadata
entry. -/
def update_agent_averages (agent_id : String) (s : ServerState) : ServerState :=
  if (alistGet agent_id s.execution_records).getD [] = [] then s
  else
    match alistGet agent_id s.agent_metadata with
    | none => s
    | some m =>
      let newMeta := updatedMeta ((alistGet agent_id s.execution_records).getD []) m
      { s with agent_metadata := alistSet agent_id newMeta s.agent_metadata }

/-- The `execution_data` dict built by `record_execution`.  `nowTs` and
`nowIso` stand for `datetime.now().timestamp()` and
`datetime.now().isoformat()`.  Python `or` treats the empty string as
falsy, hence the inner conditionals. -/
def execution_data (execution : AgentExecution) (nowTs nowIso : String) : ExecRecord where
  execution_id :=
    match execution.execution_id with
    | some e => if e = "" then execution.agent_id ++ "_" ++ nowTs else e
    | none => execution.agent_id ++ "_" ++ nowTs
  timestamp :=
    match execution.timestamp with
    | some t => if t = "" then nowIso else t
    | none => nowIso
  success := execution.success
  runtime_ms := execution.runtime_ms
  input_tokens := execution.input_tokens
  output_tokens := execution.output_tokens
  total_tokens := execution.total_tokens
  cost_usd := execution.cost_usd
  error_message := execution.error_message

/-- `record_execution` from the source: initializes the metadata entry
(with default description `"Agent {id}"`) and the record list when absent,
appends the execution record, then recomputes the averages. -/
def record_execution (execution : AgentExecution) (nowTs nowIso : String)
    (s : ServerState) : ServerState :=
  let agent_id := execution.agent_id
  let defaultMeta : AgentMeta := { id := agent_id, description := "Agent " ++ agent_id }
  let s1 : ServerState :=
    if (alistGet agent_id s.agent_metadata).isSome then s
    else { s with agent_metadata := alistSet agent_id defaultMeta s.agent_metadata }
  let s2 : ServerState :=
    if (alistGet agent_id s1.execution_records).isSome then s1
    else { s1 with execution_records := alistSet agent_id [] s1.execution_records }
  let recs := (alistGet agent_id s2.execution_records).getD []
  let newRecs := recs ++ [execution_data execution nowTs nowIso]
  let s3 := { s2 with execution_records := alistSet agent_id newRecs s2.execution_records }
  update_agent_averages agent_id s3

/-- The `/register_agent` handler: unconditionally overwrites the metadata
entry with the caller-supplied fields, then recomputes the averages from
any existing execution history. -/
def register_agent (metadata : AgentMeta) (s : ServerState) : ServerState :=
  let entry : AgentMeta :=
    { id := metadata.id, description := metadata.description,
      avg_cost := metadata.avg_cost, avg_latency := metadata.avg_latency }
  let s1 := { s with agent_metadata := alistSet metadata.id entry s.agent_metadata }
  update_agent_averages metadata.id s1

/-- `get_agent_usage_internal` from the source: 404 when the agent is not
in `agent_metadata`; an all-zero response when it has no records; otherwise
counts, means of the non-null token fields, and the rounded 50th/95th
latency percentiles.  The handler performs no mutation. -/
def get_agent_usage_internal (agent_id : String) (s : ServerState) :
    Except HTTPError AgentUsageResponse :=
  if (alistGet agent_id s.agent_metadata).isNone then
    .error ⟨404, "Agent " ++ agent_id ++ " not found in inventory"⟩
  else
    let records := (alistGet agent_id s.execution_records).getD []
    if records = [] then
      .ok ⟨0, 0, 0, 0, 0, 0⟩
    else
      let total_runs := records.length
      let failures := (records.filter (fun r => !r.success)).length
      let input_tokens_list : List ℤ := records.filterMap (fun r => r.input_tokens)
      let avg_input_tokens : ℚ :=
        if input_tokens_list = [] then 0
        else (input_tokens_list.sum : ℚ) / (input_tokens_list.length : ℚ)
      let output_tokens_list : List ℤ := records.filterMap (fun r => r.output_tokens)
      let avg_output_tokens : ℚ :=
        if output_tokens_list = [] then 0
        else (output_tokens_list.sum : ℚ) / (output_tokens_list.length : ℚ)
      let latencies := records.filterMap (fun r => r.runtime_ms)
      let p50_latency_ms := if latencies = [] then 0 else calculate_percentile latencies 50
      let p95_latency_ms := if latencies = [] then 0 else calculate_percentile latencies 95
      .ok ⟨total_runs, failures, pyRound avg_input_tokens 2, pyRound avg_output_tokens 2,
        pyRound p50_latency_ms 2, pyRound p95_latency_ms 2⟩

/-- The `/agent/{agent_id}` DELETE handler: 404 when the agent is not in
`agent_metadata`; otherwise removes the metadata entry and, when present,
the record list. -/
def delete_agent (agent_id : String) (s : ServerState) :
    ServerState × Except HTTPError StatusMessage :=
  if (alistGet agent_id s.agent_metadata).isNone then
    (s, .error ⟨404, "Agent " ++ agent_id ++ " not found in inventory"⟩)
  else
    let s1 := { s with agent_metadata := alistErase agent_id s.agent_metadata }
    let s2 :=
      if (alistGet agent_id s1.execution_records).isSome then
        { s1 with execution_records := alistErase agent_id s1.execution_records }
      else s1
    (s2, .ok ⟨"success", "Agent " ++ agent_id ++ " and all its records deleted"⟩)

/-- One iteration of the loop in `list_local_agents`: recompute the
averages for the visited key, then read the (updated, since the inner dict
is mutated in place) entry and collect its projection. -/
def listStep (acc : ServerState × List AgentInfo) (agent_id : String) :
    ServerState × List AgentInfo :=
  let s1 := update_agent_averages agent_id acc.1
  let m := (alistGet agent_id s1.agent_metadata).getD
    { id := agent_id, description := "Agent " ++ agent_id }
  (s1, acc.2 ++ [⟨m.id, m.description, m.avg_cost, m.avg_latency⟩])

/-- The comparison key of `agents_list.sort(key=lambda x: x["id"])`. -/
def infoLe (x y : AgentInfo) : Prop := x.id ≤ y.id

instance : DecidableRel infoLe := fun x y => inferInstanceAs (Decidable (x.id ≤ y.id))

instance : IsTotal AgentInfo infoLe := ⟨fun x y => le_total x.id y.id⟩

instance : IsTrans AgentInfo infoLe := ⟨fun _ _ _ h1 h2 => le_trans h1 h2⟩

/-- The `/local/agents` handler: iterates over the current keys of
`agent_metadata`, recomputing each agent's averages and collecting the
entries, then sorts the collected list by agent id (`list.sort` is a
stable ascending sort, modelled by insertion sort). -/
def list_local_agents (s : ServerState) : ServerState × List AgentInfo :=
  let keys := s.agent_metadata.map Prod.fst
  let res := keys.foldl listStep (s, [])
  (res.1, res.2.insertionSort infoLe)

/-- The `/record_execution` handler: performs `record_execution` and
answers with the caller-supplied `execution.execution_id` (not the possibly
synthesized identifier that was stored). -/
def record_agent_execution (execution : AgentExecution) (nowTs nowIso : String)
    (s : ServerState) : ServerState × RecordResponse :=
  (record_execution execution nowTs nowIso s,
   ⟨"success", "Execution recorded for agent " ++ execution.agent_id,
    execution.execution_id⟩)

/-- One client-visible operation on the server. -/
inductive Op where
  | record (e : AgentExecution) (nowTs nowIso : String)
  | register (m : AgentMeta)
  | usage (agent_id : String)
  | listAgents
  | delete (agent_id : String)

/-- The state transition of each operation.  The usage query performs no
mutation; `list_local_agents` mutates through its per-agent recomputes. -/
def applyOp (s : ServerState) : Op → ServerState
  | .record e nowTs nowIso => record_execution e nowTs nowIso s
  | .register m => register_agent m s
  | .usage _ => s
  | .listAgents => (list_local_agents s).1
  | .delete a => (delete_agent a s).1

/-- Run a sequence of operations from a starting state. -/
def runOps (s : ServerState) (ops : List Op) : ServerState := ops.foldl applyOp s

/-- Whether agent `a` has been registered or had an execution recorded,
with the flag reset by a delete of `a`: the provenance that actually
governs presence in the registry. -/
def activeStep (a : String) (b : Bool) : Op → Bool
  | .record e _ _ => b || decide (e.agent_id = a)
  | .register m => b || decide (m.id = a)
  | .delete a' => if a' = a then false else b
  | _ => b

/-- `activeAfter a ops`: agent `a` was registered or recorded since its
most recent delete (if any). -/
def activeAfter (a : String) (ops : List Op) : Bool := ops.foldl (activeStep a) false

/-- The spec's literal provenance predicate: agent `a` was ever explicitly
registered or ever had an execution recorded, anywhere in the sequence. -/
def everRegisteredOrRecorded (a : String) (ops : List Op) : Bool :=
  ops.any fun op =>
    match op with
    | .record e _ _ => decide (e.agent_id = a)
    | .register m => decide (m.id = a)
    | _ => false

/-- The percentile function as the specification words it: floor-based
index selection, returning the element at the index when the fractional
rank is an exact integer and otherwise
`lower + (upper - lower) * frac(index)`.  Written from the spec text, to be
compared with `calculate_percentile`, which is translated from the code. -/
def percentile_spec (values : List ℚ) (p : ℚ) : ℚ :=
  if values = [] then 0
  else
    let sorted := values.insertionSort (· ≤ ·)
    let index : ℚ := (p / 100) * ((sorted.length : ℚ) - 1)
    if ((⌊index⌋ : ℤ) : ℚ) = index then sorted.getD (⌊index⌋).toNat 0
    else
      let lower := sorted.getD (⌊index⌋).toNat 0
      let upper := sorted.getD ((⌊index⌋).toNat + 1) 0
      lower + (upper - lower) * (index - ((⌊index⌋ : ℤ) : ℚ))

/-- Derived metadata entry after a sequence of `record_execution` calls for
one agent starting from the empty store. -/
def metaAfterCalls (a : String) (calls : List (AgentExecution × String × String)) :
    AgentMeta :=
  let costs := calls.filterMap fun c => c.1.cost_usd
  let lats := calls.filterMap fun c => c.1.runtime_ms
  { id := a, description := "Agent " ++ a,
    avg_cost :=
      if costs = [] then none
      else some (pyRound (costs.sum / (costs.length : ℚ)) 6),
    avg_latency :=
      if lats = [] then none
      else some (pyRound (lats.sum / (lats.length : ℚ)) 2) }

/-- Full store after a sequence of `record_execution` calls for one agent
starting from the empty store. -/
def stateAfterCalls (a : String) (calls : List (AgentExecution × String × String)) :
    ServerState :=
  if calls = [] then initState
  else
    { agent_metadata := [(a, metaAfterCalls a calls)],
      execution_records := [(a, calls.map fun c => execution_data c.1 c.2.1 c.2.2)] }

/-- The `list_local_agents` entry produced for key `k`: the projection of
`k`'s metadata after recomputing its averages. -/
def infoAfterRecompute (s : ServerState) (k : String) : AgentInfo :=
  let m := (alistGet k (update_agent_averages k s).agent_metadata).getD
    { id := k, description := "Agent " ++ k }
  ⟨m.id, m.description, m.avg_cost, m.avg_latency⟩

/-! ### Association-list lemmas -/

theorem alistGet_set_self {α : Type} (k : String) (v : α) (l : List (String × α)) :
    alistGet k (alistSet k v l) = some v := by
  induction l with
  | nil => simp [alistGet, alistSet]
  | cons p rest ih =>
    obtain ⟨k', v'⟩ := p
    by_cases h : k' = k
    · simp [alistSet, alistGet, h]
    · simp [alistSet, alistGet, h, ih]

theorem alistGet_set_ne {α : Type} {k k' : String} (v : α) (l : List (String × α))
    (h : k' ≠ k) : alistGet k' (alistSet k v l) = alistGet k' l := by
  induction l with
  | nil => simp [alistGet, alistSet, Ne.symm h]
  | cons p rest ih =>
    obtain ⟨k'', v''⟩ := p
    by_cases hk : k'' = k
    · subst hk
      simp [alistSet, alistGet, Ne.symm h]
    · simp [alistSet, alistGet, hk, ih]

theorem alistGet_eq_none_iff {α : Type} (k : String) (l : List (String × α)) :
    alistGet k l = none ↔ k ∉ l.map Prod.fst := by
  induction l with
  | nil => simp [alistGet]
  | cons p rest ih =>
    obtain ⟨k', v'⟩ := p
    by_cases h : k' = k
    · subst h
      simp [alistGet]
    · simp [alistGet, h, Ne.symm h, ih]

theorem alistGet_mem {α : Type} (k : String) (v : α) (l : List (String × α)) :
    alistGet k l = some v → (k, v) ∈ l := by
  induction l with
  | nil => simp [alistGet]
  | cons p rest ih =>
    obtain ⟨k', v'⟩ := p
    intro h
    by_cases hk : k' = k
    · subst hk
      simp [alistGet] at h
      simp [h]
    · simp only [alistGet, if_neg hk] at h
      exact List.mem_cons_of_mem _ (ih h)

theorem alistGet_erase_ne {α : Type} {k k' : String} (l : List (String × α))
    (h : k' ≠ k) : alistGet k' (alistErase k l) = alistGet k' l := by
  induction l with
  | nil => simp [alistErase]
  | cons p rest ih =>
    obtain ⟨k'', v''⟩ := p
    by_cases hk : k'' = k
    · subst hk
      simp [alistErase, alistGet, Ne.symm h]
    · simp [alistErase, alistGet, hk, ih]

theorem alistGet_erase_self {α : Type} (k : String) (l : List (String × α)) :
    (l.map Prod.fst).Nodup → alistGet k (alistErase k l) = none := by
  induction l with
  | nil => simp [alistErase, alistGet]
  | cons p rest ih =>
    obtain ⟨k', v'⟩ := p
    intro hnd
    simp only [List.map_cons, List.nodup_cons] at hnd
    by_cases hk : k' = k
    · subst hk
      simp only [alistErase, if_pos rfl]
      exact (alistGet_eq_none_iff _ _).2 hnd.1
    · simp only [alistErase, if_neg hk, alistGet, if_neg hk]
      exact ih hnd.2

theorem alistErase_mem {α : Type} (k : String) (x : String × α) (l : List (String × α)) :
    x ∈ alistErase k l → x ∈ l := by
  induction l with
  | nil => simp [alistErase]
  | cons p rest ih =>
    obtain ⟨k', v'⟩ := p
    intro h
    by_cases hk : k' = k
    · subst hk
      simp only [alistErase, if_pos rfl] at h
      exact List.mem_cons_of_mem _ h
    · simp only [alistErase, if_neg hk, List.mem_cons] at h
      rcases h with h | h
      · simp [h]
      · exact List.mem_cons_of_mem _ (ih h)

theorem alistErase_map_fst_sublist {α : Type} (k : String) (l : List (String × α)) :
    ((alistErase k l).map Prod.fst).Sublist (l.map Prod.fst) := by
  induction l with
  | nil => simp [alistErase]
  | cons p rest ih =>
    obtain ⟨k', v'⟩ := p
    by_cases hk : k' = k
    · simp only [alistErase, if_pos hk, List.map_cons]
      exact List.sublist_cons_self _ _
    · simp only [alistErase, if_neg hk, List.map_cons]
      exact ih.cons₂ _

theorem alistSet_mem_fst {α : Type} (k : String) (v : α) (l : List (String × α)) :
    ∀ x ∈ (alistSet k v l).map Prod.fst, x ∈ l.map Prod.fst ∨ x = k := by
  induction l with
  | nil =>
    intro x hx
    simp [alistSet] at hx
    exact Or.inr hx
  | cons p rest ih =>
    obtain ⟨k', v'⟩ := p
    intro x hx
    by_cases hk : k' = k
    · simp only [alistSet, if_pos hk, List.map_cons, List.mem_cons] at hx
      exact Or.inl (by simpa using hx)
    · simp only [alistSet, if_neg hk, List.map_cons, List.mem_cons] at hx
      rcases hx with hx | hx
      · exact Or.inl (by simp [hx])
      · rcases ih x hx with h' | h'
        · exact Or.inl (List.mem_cons_of_mem _ h')
        · exact Or.inr h'

theorem alistSet_nodup_fst {α : Type} (k : String) (v : α) (l : List (String × α)) :
    (l.map Prod.fst).Nodup → ((alistSet k v l).map Prod.fst).Nodup := by
  induction l with
  | nil => simp [alistSet]
  | cons p rest ih =>
    obtain ⟨k', v'⟩ := p
    intro hnd
    simp only [List.map_cons, List.nodup_cons] at hnd
    by_cases hk : k' = k
    · simp only [alistSet, if_pos hk, List.map_cons, List.nodup_cons]
      exact ⟨hnd.1, hnd.2⟩
    · simp only [alistSet, if_neg hk, List.map_cons, List.nodup_cons]
      refine ⟨fun hmem => ?_, ih hnd.2⟩
      rcases alistSet_mem_fst k v rest k' hmem with h' | h'
      · exact hnd.1 h'
      · exact hk h'

theorem alistSet_map_fst_of_isSome {α : Type} (k : String) (v : α)
    (l : List (String × α)) :
    (alistGet k l).isSome → (alistSet k v l).map Prod.fst = l.map Prod.fst := by
  induction l with
  | nil => simp [alistGet]
  | cons p rest ih =>
    obtain ⟨k', v'⟩ := p
    intro h
    by_cases hk : k' = k
    · simp [alistSet, hk]
    · simp only [alistGet, if_neg hk] at h
      simp [alistSet, hk, ih h]

/-! ### Structural lemmas about `update_agent_averages` -/

theorem updatedMeta_empty (m : AgentMeta) : updatedMeta [] m = m := by
  simp [updatedMeta]

theorem updatedMeta_id (records : List ExecRecord) (m : AgentMeta) :
    (updatedMeta records m).id = m.id := rfl

theorem updatedMeta_avg_cost (records : List ExecRecord) (m : AgentMeta) :
    (updatedMeta records m).avg_cost =
      if records.filterMap (fun r => r.cost_usd) = [] then m.avg_cost
      else some (pyRound ((records.filterMap (fun r => r.cost_usd)).sum /
        (((records.filterMap (fun r => r.cost_usd)).length : ℚ))) 6) := rfl

theorem updatedMeta_avg_latency (records : List ExecRecord) (m : AgentMeta) :
    (updatedMeta records m).avg_latency =
      if records.filterMap (fun r => r.runtime_ms) = [] then m.avg_latency
      else some (pyRound ((records.filterMap (fun r => r.runtime_ms)).sum /
        (((records.filterMap (fun r => r.runtime_ms)).length : ℚ))) 2) := rfl

theorem update_records_eq (k : String) (s : ServerState) :
    (update_agent_averages k s).execution_records = s.execution_records := by
  unfold update_agent_averages
  split
  · rfl
  · split <;> rfl

theorem update_meta_get_ne {k k' : String} (s : ServerState) (h : k' ≠ k) :
    alistGet k' (update_agent_averages k s).agent_metadata =
      alistGet k' s.agent_metadata := by
  unfold update_agent_averages
  split
  · rfl
  · split
    · rfl
    · exact alistGet_set_ne _ _ h

theorem update_meta_get_self {k : String} {s : ServerState} {m : AgentMeta}
    (hm : alistGet k s.agent_metadata = some m) :
    alistGet k (update_agent_averages k s).agent_metadata =
      some (updatedMeta ((alistGet k s.execution_records).getD []) m) := by
  unfold update_agent_averages
  split
  · next hrec => rw [hm, hrec, updatedMeta_empty]
  · rw [hm]
    exact alistGet_set_self _ _ _

theorem update_meta_isSome (k' k : String) (s : ServerState) :
    (alistGet k' (update_agent_averages k s).agent_metadata).isSome =
      (alistGet k' s.agent_metadata).isSome := by
  by_cases h : k' = k
  · subst h
    cases hm : alistGet k' s.agent_metadata with
    | none =>
      have hupd : alistGet k' (update_agent_averages k' s).agent_metadata = none := by
        unfold update_agent_averages
        split
        · exact hm
        · rw [hm]
          exact hm
      rw [hupd]
    | some m => simp [update_meta_get_self hm]
  · rw [update_meta_get_ne s h]

theorem update_meta_map_fst (k : String) (s : ServerState) :
    (update_agent_averages k s).agent_metadata.map Prod.fst =
      s.agent_metadata.map Prod.fst := by
  unfold update_agent_averages
  split
  · rfl
  · split
    · rfl
    · next m hm =>
      exact alistSet_map_fst_of_isSome _ _ _ (by rw [hm]; rfl)

/-! ### Lemmas about `record_execution` and single-agent traces -/

theorem pyRound_zero (n : ℕ) : pyRound 0 n = 0 := by
  simp [pyRound, roundHalfEven]

theorem filterMap_cost_map (calls : List (AgentExecution × String × String)) :
    ((calls.map fun c => execution_data c.1 c.2.1 c.2.2).filterMap fun r => r.cost_usd)
      = calls.filterMap fun c => c.1.cost_usd := by
  rw [List.filterMap_map]
  rfl

theorem filterMap_runtime_map (calls : List (AgentExecution × String × String)) :
    ((calls.map fun c => execution_data c.1 c.2.1 c.2.2).filterMap fun r => r.runtime_ms)
      = calls.filterMap fun c => c.1.runtime_ms := by
  rw [List.filterMap_map]
  rfl

theorem metaAfterCalls_nil (a : String) :
    metaAfterCalls a [] = { id := a, description := "Agent " ++ a } := by
  simp [metaAfterCalls]

theorem updatedMeta_metaAfter (a : String) (c : AgentExecution × String × String)
    (calls : List (AgentExecution × String × String)) :
    updatedMeta ((calls ++ [c]).map fun x => execution_data x.1 x.2.1 x.2.2)
      (metaAfterCalls a calls) = metaAfterCalls a (calls ++ [c]) := by
  have hcost := filterMap_cost_map (calls ++ [c])
  have hlat := filterMap_runtime_map (calls ++ [c])
  unfold updatedMeta
  rw [hcost, hlat]
  simp only [metaAfterCalls, AgentMeta.mk.injEq]
  refine ⟨by trivial, by trivial, ?_, ?_⟩
  · rw [List.filterMap_append]
    by_cases h1 : (calls.filterMap fun x => x.1.cost_usd) = []
    · by_cases h2 : ([c].filterMap fun x => x.1.cost_usd) = []
      · simp [h1, h2]
      · simp [h1, h2]
    · simp [h1]
  · rw [List.filterMap_append]
    by_cases h1 : (calls.filterMap fun x => x.1.runtime_ms) = []
    · by_cases h2 : ([c].filterMap fun x => x.1.runtime_ms) = []
      · simp [h1, h2]
      · simp [h1, h2]
    · simp [h1]

theorem record_execution_present (e : AgentExecution) (ts iso : String)
    (s : ServerState) (m : AgentMeta) (R : List ExecRecord)
    (hm : alistGet e.agent_id s.agent_metadata = some m)
    (hr : alistGet e.agent_id s.execution_records = some R) :
    record_execution e ts iso s =
      update_agent_averages e.agent_id
        { s with execution_records :=
            alistSet e.agent_id (R ++ [execution_data e ts iso]) s.execution_records } := by
  unfold record_execution
  simp only [hm, hr, Option.isSome_some, if_true, Option.getD_some]

theorem record_execution_absent (e : AgentExecution) (ts iso : String)
    (s : ServerState)
    (hm : alistGet e.agent_id s.agent_metadata = none)
    (hr : alistGet e.agent_id s.execution_records = none) :
    record_execution e ts iso s =
      update_agent_averages e.agent_id
        { agent_metadata :=
            alistSet e.agent_id ⟨e.agent_id, "Agent " ++ e.agent_id, none, none⟩
              s.agent_metadata,
          execution_records :=
            alistSet e.agent_id ([] ++ [execution_data e ts iso])
              (alistSet e.agent_id [] s.execution_records) } := by
  unfold record_execution
  simp only [hm, hr, Option.isSome_none, Bool.false_eq_true, if_false,
    alistGet_set_self, Option.getD_some]

theorem alistSet_nil {α : Type} (k : String) (v : α) : alistSet k v [] = [(k, v)] := rfl

theorem alistSet_cons_self {α : Type} (k : String) (v w : α) (rest : List (String × α)) :
    alistSet k v ((k, w) :: rest) = (k, v) :: rest := by
  simp [alistSet]

theorem update_on_singleton (a : String) (M : AgentMeta) (R : List ExecRecord)
    (hR : R ≠ []) :
    update_agent_averages a ⟨[(a, M)], [(a, R)]⟩ = ⟨[(a, updatedMeta R M)], [(a, R)]⟩ := by
  unfold update_agent_averages
  simp only [show alistGet a [(a, R)] = some R from by simp [alistGet],
    show alistGet a [(a, M)] = some M from by simp [alistGet],
    Option.getD_some, if_neg hR]
  simp [alistSet]

theorem record_step (a : String) (c : AgentExecution × String × String)
    (hc : c.1.agent_id = a) (calls : List (AgentExecution × String × String)) :
    record_execution c.1 c.2.1 c.2.2 (stateAfterCalls a calls) =
      stateAfterCalls a (calls ++ [c]) := by
  by_cases hnil : calls = []
  · subst hnil
    rw [show stateAfterCalls a [] = initState from by simp [stateAfterCalls]]
    rw [record_execution_absent c.1 c.2.1 c.2.2 initState (by rw [hc]; rfl)
      (by rw [hc]; rfl)]
    rw [hc]
    simp only [initState, List.nil_append, alistSet_nil, alistSet_cons_self]
    rw [update_on_singleton a _ _ (by simp)]
    have hres := updatedMeta_metaAfter a c []
    simp only [List.nil_append, List.map_cons, List.map_nil, metaAfterCalls_nil] at hres
    rw [hres]
    simp [stateAfterCalls]
  · have hstate : stateAfterCalls a calls =
        ⟨[(a, metaAfterCalls a calls)],
         [(a, calls.map fun x => execution_data x.1 x.2.1 x.2.2)]⟩ := by
      simp [stateAfterCalls, hnil]
    rw [hstate]
    rw [record_execution_present c.1 c.2.1 c.2.2 _ (metaAfterCalls a calls)
      (calls.map fun x => execution_data x.1 x.2.1 x.2.2)
      (by rw [hc]; simp [alistGet]) (by rw [hc]; simp [alistGet])]
    rw [hc]
    simp only [alistSet_cons_self]
    rw [update_on_singleton a _ _ (by simp)]
    rw [show (calls.map fun x => execution_data x.1 x.2.1 x.2.2) ++
        [execution_data c.1 c.2.1 c.2.2] =
        (calls ++ [c]).map fun x => execution_data x.1 x.2.1 x.2.2 from by simp]
    rw [updatedMeta_metaAfter a c calls]
    simp [stateAfterCalls]

theorem runCalls_eq (a : String) (calls : List (AgentExecution × String × String))
    (hall : ∀ c ∈ calls, c.1.agent_id = a) :
    runOps initState (calls.map fun c => Op.record c.1 c.2.1 c.2.2) =
      stateAfterCalls a calls := by
  induction calls using List.reverseRecOn with
  | nil => rfl
  | append_singleton calls c ih =>
    rw [List.map_append, runOps, List.foldl_append]
    simp only [List.map_cons, List.map_nil, List.foldl_cons, List.foldl_nil]
    have hpre : ∀ x ∈ calls, x.1.agent_id = a := fun x hx =>
      hall x (List.mem_append_left _ hx)
    have hc : c.1.agent_id = a := hall c (List.mem_append_right _ (by simp))
    rw [show List.foldl applyOp initState (calls.map fun x =>
      Op.record x.1 x.2.1 x.2.2) = runOps initState (calls.map fun x =>
        Op.record x.1 x.2.1 x.2.2) from rfl]
    rw [ih hpre]
    exact record_step a c hc calls

/-- C1: over any sequence of `record_execution` calls for one fixed agent
id (starting from the empty store), once at least one call has supplied a
non-null `cost_usd` (resp. `runtime_ms`), the `avg_cost` (resp.
`avg_latency`) stored in the registry equals the arithmetic mean of all
non-null `cost_usd` (resp. `runtime_ms`) values submitted so far, rounded
to 6 (resp. 2) decimal places.  The statement quantifies over every such
sequence, hence applies after each call (each prefix is itself such a
sequence). -/
theorem C1_averages_after_each_call (a : String)
    (calls : List (AgentExecution × String × String))
    (hall : ∀ c ∈ calls, c.1.agent_id = a) :
    ((calls.filterMap fun c => c.1.cost_usd) ≠ [] →
      ((alistGet a (runOps initState (calls.map fun c =>
          Op.record c.1 c.2.1 c.2.2)).agent_metadata).bind fun m => m.avg_cost) =
        some (pyRound ((calls.filterMap fun c => c.1.cost_usd).sum /
          (((calls.filterMap fun c => c.1.cost_usd).length : ℚ))) 6))
    ∧ ((calls.filterMap fun c => c.1.runtime_ms) ≠ [] →
      ((alistGet a (runOps initState (calls.map fun c =>
          Op.record c.1 c.2.1 c.2.2)).agent_metadata).bind fun m => m.avg_latency) =
        some (pyRound ((calls.filterMap fun c => c.1.runtime_ms).sum /
          (((calls.filterMap fun c => c.1.runtime_ms).length : ℚ))) 2)) := by
  rw [runCalls_eq a calls hall]
  constructor
  · intro hc
    have hnil : calls ≠ [] := by
      intro h
      subst h
      simp at hc
    simp only [stateAfterCalls, if_neg hnil, alistGet, if_pos rfl]
    simp [metaAfterCalls, hc]
  · intro hl
    have hnil : calls ≠ [] := by
      intro h
      subst h
      simp at hl
    simp only [stateAfterCalls, if_neg hnil, alistGet, if_pos rfl]
    simp [metaAfterCalls, hl]

/-- Witness for C1 at the single call recording cost 1 and runtime 100 for
agent `"a1"`: the stored averages are 1 and 100. -/
theorem C1_witness :
    ((alistGet "a1" (runOps initState ([((
        { agent_id := "a1", cost_usd := some 1, runtime_ms := some 100 } :
          AgentExecution), "t", "i")].map fun c =>
        Op.record c.1 c.2.1 c.2.2)).agent_metadata).bind fun m => m.avg_cost) =
      some 1 ∧
    ((alistGet "a1" (runOps initState ([((
        { agent_id := "a1", cost_usd := some 1, runtime_ms := some 100 } :
          AgentExecution), "t", "i")].map fun c =>
        Op.record c.1 c.2.1 c.2.2)).agent_metadata).bind fun m => m.avg_latency) =
      some 100 := by
  have h := C1_averages_after_each_call "a1"
    [(({ agent_id := "a1", cost_usd := some 1, runtime_ms := some 100 } :
      AgentExecution), "t", "i")] (by decide)
  refine ⟨(h.1 (by simp)).trans ?_, (h.2 (by simp)).trans ?_⟩
  · norm_num [List.filterMap, pyRound, roundHalfEven]
  · norm_num [List.filterMap, pyRound, roundHalfEven]

/-! ### C2: the percentile function -/

theorem den_one_iff_floor (q : ℚ) : q.den = 1 ↔ ((⌊q⌋ : ℤ) : ℚ) = q := by
  constructor
  · intro h
    have h2 := (Rat.den_eq_one_iff q).1 h
    calc ((⌊q⌋ : ℤ) : ℚ) = ((⌊((q.num : ℤ) : ℚ)⌋ : ℤ) : ℚ) := by rw [h2]
    _ = ((q.num : ℤ) : ℚ) := by rw [Int.floor_intCast]
    _ = q := h2
  · intro h
    rw [← h]
    exact Rat.den_intCast _

theorem percentile_eq_spec (data : List ℚ) (p : ℚ) (hp0 : 0 ≤ p) :
    calculate_percentile data p = percentile_spec data p := by
  by_cases hd : data = []
  · simp [calculate_percentile, percentile_spec, hd]
  · have hlen : 1 ≤ ((data.insertionSort (· ≤ ·)).length : ℚ) := by
      rw [List.length_insertionSort]
      have h0 : data.length ≠ 0 := by simpa using hd
      exact_mod_cast Nat.one_le_iff_ne_zero.2 h0
    have hidx : 0 ≤ (p / 100) * (((data.insertionSort (· ≤ ·)).length : ℚ) - 1) :=
      mul_nonneg (div_nonneg hp0 (by norm_num)) (by linarith)
    have htr : truncToward0 ((p / 100) * (((data.insertionSort (· ≤ ·)).length : ℚ) - 1)) =
        ⌊(p / 100) * (((data.insertionSort (· ≤ ·)).length : ℚ) - 1)⌋ := if_pos hidx
    simp only [calculate_percentile, percentile_spec, if_neg hd, htr]
    exact if_congr (den_one_iff_floor _) rfl rfl

theorem percentile_singleton (x p : ℚ) : calculate_percentile [x] p = x := by
  simp [calculate_percentile, truncToward0]

/-- C2: the percentile function returns 0 on empty input, the single
element on singleton input, agrees with the spec's floor-based
interpolation formula on every input for `p` in `[0, 100]`, and takes the
spec's stated values on `[10, 20, 30, 40]` at `p = 50, 0, 100`. -/
theorem C2_percentile_contract (data : List ℚ) (p : ℚ) (hp0 : 0 ≤ p)
    (_hp100 : p ≤ 100) :
    calculate_percentile data p = percentile_spec data p
    ∧ calculate_percentile [] p = 0
    ∧ (∀ x : ℚ, calculate_percentile [x] p = x)
    ∧ calculate_percentile [10, 20, 30, 40] 50 = 25
    ∧ calculate_percentile [10, 20, 30, 40] 0 = 10
    ∧ calculate_percentile [10, 20, 30, 40] 100 = 40 := by
  refine ⟨percentile_eq_spec data p hp0, by simp [calculate_percentile],
    fun x => percentile_singleton x p, ?_, ?_, ?_⟩
  · rw [percentile_eq_spec _ _ (by norm_num)]
    simp only [percentile_spec]
    rw [if_neg (by simp)]
    norm_num [List.insertionSort, List.orderedInsert, List.getD, Int.toNat_ofNat]
  · rw [percentile_eq_spec _ _ (by norm_num)]
    simp only [percentile_spec]
    rw [if_neg (by simp)]
    norm_num [List.insertionSort, List.orderedInsert, List.getD, Int.toNat_ofNat]
  · rw [percentile_eq_spec _ _ (by norm_num)]
    simp only [percentile_spec]
    rw [if_neg (by simp)]
    norm_num [List.insertionSort, List.orderedInsert, List.getD, Int.toNat_ofNat]
    rfl

/-- Witness for C2 at `p = 50`. -/
theorem C2_witness :
    (0 : ℚ) ≤ 50 ∧ (50 : ℚ) ≤ 100 ∧
    (calculate_percentile [10, 20, 30, 40] 50 = percentile_spec [10, 20, 30, 40] 50
      ∧ calculate_percentile [] 50 = 0
      ∧ (∀ x : ℚ, calculate_percentile [x] 50 = x)
      ∧ calculate_percentile [10, 20, 30, 40] 50 = 25
      ∧ calculate_percentile [10, 20, 30, 40] 0 = 10
      ∧ calculate_percentile [10, 20, 30, 40] 100 = 40) :=
  ⟨by norm_num, by norm_num,
    C2_percentile_contract [10, 20, 30, 40] 50 (by norm_num) (by norm_num)⟩

/-! ### C3 and C4: the usage query -/

theorem pyRound_ite (c : Prop) [Decidable c] (x : ℚ) (n : ℕ) :
    pyRound (if c then 0 else x) n = if c then 0 else pyRound x n := by
  split_ifs with h
  · exact pyRound_zero n
  · rfl

/-- C3: for an agent present in the registry the usage query succeeds and
returns the record count, the count of failed records, the means of the
non-null token fields (0 with no samples), and the 50th/95th percentiles
of the non-null runtimes (0 with no samples), each rounded to 2 decimals;
with zero records every field is zero rather than an error. -/
theorem C3_usage_statistics (s : ServerState) (a : String)
    (hm : (alistGet a s.agent_metadata).isSome) :
    ∃ resp : AgentUsageResponse,
      get_agent_usage_internal a s = Except.ok resp
      ∧ resp.total_runs = ((alistGet a s.execution_records).getD []).length
      ∧ resp.failures =
          (((alistGet a s.execution_records).getD []).filter fun r => !r.success).length
      ∧ resp.avg_input_tokens =
          (if (((alistGet a s.execution_records).getD []).filterMap fun r => r.input_tokens) = []
           then 0
           else pyRound
             ((((((alistGet a s.execution_records).getD []).filterMap fun r => r.input_tokens : List ℤ)).sum : ℚ) /
               ((((alistGet a s.execution_records).getD []).filterMap fun r => r.input_tokens).length : ℚ)) 2)
      ∧ resp.avg_output_tokens =
          (if (((alistGet a s.execution_records).getD []).filterMap fun r => r.output_tokens) = []
           then 0
           else pyRound
             ((((((alistGet a s.execution_records).getD []).filterMap fun r => r.output_tokens : List ℤ)).sum : ℚ) /
               ((((alistGet a s.execution_records).getD []).filterMap fun r => r.output_tokens).length : ℚ)) 2)
      ∧ resp.p50_latency_ms =
          (if (((alistGet a s.execution_records).getD []).filterMap fun r => r.runtime_ms) = []
           then 0
           else pyRound (calculate_percentile
             (((alistGet a s.execution_records).getD []).filterMap fun r => r.runtime_ms) 50) 2)
      ∧ resp.p95_latency_ms =
          (if (((alistGet a s.execution_records).getD []).filterMap fun r => r.runtime_ms) = []
           then 0
           else pyRound (calculate_percentile
             (((alistGet a s.execution_records).getD []).filterMap fun r => r.runtime_ms) 95) 2)
      ∧ (((alistGet a s.execution_records).getD []) = [] → resp = ⟨0, 0, 0, 0, 0, 0⟩) := by
  obtain ⟨m, hm'⟩ := Option.isSome_iff_exists.1 hm
  simp only [get_agent_usage_internal, hm', Option.isNone_some, Bool.false_eq_true, if_false]
  by_cases hrec : ((alistGet a s.execution_records).getD []) = []
  · rw [if_pos hrec]
    refine ⟨⟨0, 0, 0, 0, 0, 0⟩, rfl, ?_, ?_, ?_, ?_, ?_, ?_, fun _ => rfl⟩ <;>
      simp [hrec]
  · rw [if_neg hrec]
    exact ⟨_, rfl, rfl, rfl, pyRound_ite _ _ _, pyRound_ite _ _ _, pyRound_ite _ _ _,
      pyRound_ite _ _ _, fun h => absurd h hrec⟩

/-- Concrete store for the C3 witness: agent `"a1"` with three runs whose
runtimes are 100, 200, 300. -/
def c3State : ServerState :=
  ⟨[("a1", ⟨"a1", "Agent a1", none, none⟩)],
   [("a1",
     [⟨"e1", "t1", true, some 100, none, none, none, none, none⟩,
      ⟨"e2", "t2", true, some 200, none, none, none, none, none⟩,
      ⟨"e3", "t3", true, some 300, none, none, none, none, none⟩])]⟩

/-- Witness for C3 at `c3State`. -/
theorem C3_witness :
    (alistGet "a1" c3State.agent_metadata).isSome = true ∧
    (∃ resp : AgentUsageResponse,
      get_agent_usage_internal "a1" c3State = Except.ok resp
      ∧ resp.total_runs = ((alistGet "a1" c3State.execution_records).getD []).length
      ∧ resp.failures =
          (((alistGet "a1" c3State.execution_records).getD []).filter fun r => !r.success).length
      ∧ resp.avg_input_tokens =
          (if (((alistGet "a1" c3State.execution_records).getD []).filterMap fun r => r.input_tokens) = []
           then 0
           else pyRound
             ((((((alistGet "a1" c3State.execution_records).getD []).filterMap fun r => r.input_tokens : List ℤ)).sum : ℚ) /
               ((((alistGet "a1" c3State.execution_records).getD []).filterMap fun r => r.input_tokens).length : ℚ)) 2)
      ∧ resp.avg_output_tokens =
          (if (((alistGet "a1" c3State.execution_records).getD []).filterMap fun r => r.output_tokens) = []
           then 0
           else pyRound
             ((((((alistGet "a1" c3State.execution_records).getD []).filterMap fun r => r.output_tokens : List ℤ)).sum : ℚ) /
               ((((alistGet "a1" c3State.execution_records).getD []).filterMap fun r => r.output_tokens).length : ℚ)) 2)
      ∧ resp.p50_latency_ms =
          (if (((alistGet "a1" c3State.execution_records).getD []).filterMap fun r => r.runtime_ms) = []
           then 0
           else pyRound (calculate_percentile
             (((alistGet "a1" c3State.execution_records).getD []).filterMap fun r => r.runtime_ms) 50) 2)
      ∧ resp.p95_latency_ms =
          (if (((alistGet "a1" c3State.execution_records).getD []).filterMap fun r => r.runtime_ms) = []
           then 0
           else pyRound (calculate_percentile
             (((alistGet "a1" c3State.execution_records).getD []).filterMap fun r => r.runtime_ms) 95) 2)
      ∧ (((alistGet "a1" c3State.execution_records).getD []) = [] → resp = ⟨0, 0, 0, 0, 0, 0⟩)) := by
  have hm : (alistGet "a1" c3State.agent_metadata).isSome = true := by
    simp [c3State, alistGet]
  exact ⟨hm, C3_usage_statistics c3State "a1" hm⟩

/-- C4: the usage query fails, and fails with status 404, exactly when the
agent id is absent from the registry; the query mutates nothing. -/
theorem C4_usage_not_found_iff (a : String) (s : ServerState) :
    ((∃ err, get_agent_usage_internal a s = Except.error err ∧ err.status_code = 404)
      ↔ alistGet a s.agent_metadata = none)
    ∧ applyOp s (Op.usage a) = s := by
  refine ⟨⟨?_, ?_⟩, rfl⟩
  · rintro ⟨err, herr, -⟩
    cases hm : alistGet a s.agent_metadata with
    | none => rfl
    | some m =>
      simp only [get_agent_usage_internal, hm, Option.isNone_some, Bool.false_eq_true,
        if_false] at herr
      split at herr <;> cases herr
  · intro hm
    refine ⟨⟨404, "Agent " ++ a ++ " not found in inventory"⟩, ?_, rfl⟩
    simp [get_agent_usage_internal, hm]

/-! ### C6, C7, C10: registration, recompute frame, response echo -/

theorem alistSet_set {α : Type} (k : String) (v w : α) (l : List (String × α)) :
    alistSet k v (alistSet k w l) = alistSet k v l := by
  induction l with
  | nil => simp [alistSet]
  | cons p rest ih =>
    obtain ⟨k', v'⟩ := p
    by_cases hk : k' = k
    · simp [alistSet, hk]
    · simp [alistSet, hk, ih]

theorem record_execution_meta_some (e : AgentExecution) (ts iso : String)
    (s : ServerState) (m : AgentMeta)
    (hm : alistGet e.agent_id s.agent_metadata = some m) :
    record_execution e ts iso s =
      update_agent_averages e.agent_id
        (ServerState.mk s.agent_metadata
          (alistSet e.agent_id
            (((alistGet e.agent_id s.execution_records).getD []) ++
              [execution_data e ts iso])
            s.execution_records)) := by
  simp only [record_execution]
  cases hr : alistGet e.agent_id s.execution_records with
  | none => simp [hm, hr, alistGet_set_self, alistSet_set]
  | some R => simp [hm, hr]

theorem record_execution_records_get (e : AgentExecution) (ts iso : String)
    (s : ServerState) :
    alistGet e.agent_id (record_execution e ts iso s).execution_records =
      some (((alistGet e.agent_id s.execution_records).getD []) ++
        [execution_data e ts iso]) := by
  simp only [record_execution, update_records_eq]
  by_cases hmeta : (alistGet e.agent_id s.agent_metadata).isSome <;>
    cases hr : alistGet e.agent_id s.execution_records <;>
      simp [hmeta, hr, alistGet_set_self, alistSet_set]

/-- C6: re-registering an agent that has execution history with non-null
cost (resp. runtime) samples leaves the corresponding stored average
non-null: whatever metadata the caller supplies (including null averages),
the averages are immediately recomputed from the existing history. -/
theorem C6_reregistration_keeps_averages (s : ServerState) (m_in : AgentMeta)
    (recs : List ExecRecord)
    (hrec : alistGet m_in.id s.execution_records = some recs) :
    ((recs.filterMap fun r => r.cost_usd) ≠ [] →
      ((alistGet m_in.id (register_agent m_in s).agent_metadata).bind fun m => m.avg_cost)
        = some (pyRound ((recs.filterMap fun r => r.cost_usd).sum /
            ((recs.filterMap fun r => r.cost_usd).length : ℚ)) 6))
    ∧ ((recs.filterMap fun r => r.runtime_ms) ≠ [] →
      ((alistGet m_in.id (register_agent m_in s).agent_metadata).bind fun m => m.avg_latency)
        = some (pyRound ((recs.filterMap fun r => r.runtime_ms).sum /
            ((recs.filterMap fun r => r.runtime_ms).length : ℚ)) 2)) := by
  have hm1 : alistGet m_in.id
      (ServerState.mk
        (alistSet m_in.id
          (⟨m_in.id, m_in.description, m_in.avg_cost, m_in.avg_latency⟩ : AgentMeta)
          s.agent_metadata)
        s.execution_records).agent_metadata =
      some ⟨m_in.id, m_in.description, m_in.avg_cost, m_in.avg_latency⟩ :=
    alistGet_set_self _ _ _
  have h := update_meta_get_self hm1
  have hreg : register_agent m_in s = update_agent_averages m_in.id
      (ServerState.mk
        (alistSet m_in.id
          (⟨m_in.id, m_in.description, m_in.avg_cost, m_in.avg_latency⟩ : AgentMeta)
          s.agent_metadata)
        s.execution_records) := rfl
  rw [hreg, h]
  have hrecs : alistGet m_in.id
      (ServerState.mk
        (alistSet m_in.id
          (⟨m_in.id, m_in.description, m_in.avg_cost, m_in.avg_latency⟩ : AgentMeta)
          s.agent_metadata)
        s.execution_records).execution_records = some recs := hrec
  rw [hrecs]
  constructor
  · intro hc
    simp [updatedMeta_avg_cost, hc]
  · intro hl
    simp [updatedMeta_avg_latency, hl]

/-- Concrete store for the C6 witness: agent `"a1"` with one record of
cost 2 and runtime 50, re-registered with null averages. -/
def c6State : ServerState :=
  ⟨[("a1", ⟨"a1", "d", some 2, some 50⟩)],
   [("a1", [⟨"e", "t", true, some 50, none, none, none, some 2, none⟩])]⟩

/-- Witness for C6: re-registration with null averages at `c6State`. -/
theorem C6_witness :
    alistGet (AgentMeta.id ⟨"a1", "d2", none, none⟩) c6State.execution_records =
      some [⟨"e", "t", true, some 50, none, none, none, some 2, none⟩] ∧
    ((([(⟨"e", "t", true, some 50, none, none, none, some 2, none⟩ : ExecRecord)].filterMap
        fun r => r.cost_usd) ≠ [] →
      ((alistGet (AgentMeta.id ⟨"a1", "d2", none, none⟩)
          (register_agent ⟨"a1", "d2", none, none⟩ c6State).agent_metadata).bind
        fun m => m.avg_cost)
        = some (pyRound (([(⟨"e", "t", true, some 50, none, none, none, some 2, none⟩ :
            ExecRecord)].filterMap fun r => r.cost_usd).sum /
            (([(⟨"e", "t", true, some 50, none, none, none, some 2, none⟩ :
              ExecRecord)].filterMap fun r => r.cost_usd).length : ℚ)) 6))
    ∧ (([(⟨"e", "t", true, some 50, none, none, none, some 2, none⟩ : ExecRecord)].filterMap
        fun r => r.runtime_ms) ≠ [] →
      ((alistGet (AgentMeta.id ⟨"a1", "d2", none, none⟩)
          (register_agent ⟨"a1", "d2", none, none⟩ c6State).agent_metadata).bind
        fun m => m.avg_latency)
        = some (pyRound (([(⟨"e", "t", true, some 50, none, none, none, some 2, none⟩ :
            ExecRecord)].filterMap fun r => r.runtime_ms).sum /
            (([(⟨"e", "t", true, some 50, none, none, none, some 2, none⟩ :
              ExecRecord)].filterMap fun r => r.runtime_ms).length : ℚ)) 2))) := by
  have hrec : alistGet (AgentMeta.id ⟨"a1", "d2", none, none⟩) c6State.execution_records =
      some [⟨"e", "t", true, some 50, none, none, none, some 2, none⟩] := by
    simp [c6State, alistGet]
  exact ⟨hrec, C6_reregistration_keeps_averages c6State ⟨"a1", "d2", none, none⟩ _ hrec⟩

/-- C7: a recompute writes a rounded mean into a field exactly when that
field has at least one non-null sample, and otherwise leaves the stored
value untouched; in particular appending an execution record with null
`cost_usd` leaves a consistent stored `avg_cost` unchanged. -/
theorem C7_recompute_write_iff_samples (s : ServerState) (a : String) (m : AgentMeta)
    (hm : alistGet a s.agent_metadata = some m) :
    (alistGet a (update_agent_averages a s).agent_metadata =
      some (AgentMeta.mk m.id m.description
        (if (((alistGet a s.execution_records).getD []).filterMap fun r => r.cost_usd) = []
         then m.avg_cost
         else some (pyRound
           (((((alistGet a s.execution_records).getD []).filterMap fun r => r.cost_usd)).sum /
             (((((alistGet a s.execution_records).getD []).filterMap fun r => r.cost_usd)).length : ℚ)) 6))
        (if (((alistGet a s.execution_records).getD []).filterMap fun r => r.runtime_ms) = []
         then m.avg_latency
         else some (pyRound
           (((((alistGet a s.execution_records).getD []).filterMap fun r => r.runtime_ms)).sum /
             (((((alistGet a s.execution_records).getD []).filterMap fun r => r.runtime_ms)).length : ℚ)) 2))))
    ∧ (∀ (e : AgentExecution) (ts iso : String), e.agent_id = a → e.cost_usd = none →
        ((((alistGet a s.execution_records).getD []).filterMap fun r => r.cost_usd) ≠ [] →
          m.avg_cost = some (pyRound
            (((((alistGet a s.execution_records).getD []).filterMap fun r => r.cost_usd)).sum /
              (((((alistGet a s.execution_records).getD []).filterMap fun r => r.cost_usd)).length : ℚ)) 6)) →
        ((alistGet a (record_execution e ts iso s).agent_metadata).bind fun mm => mm.avg_cost)
          = m.avg_cost) := by
  constructor
  · rw [update_meta_get_self hm]
    rfl
  · intro e ts iso hea hcost hcons
    subst hea
    rw [record_execution_meta_some e ts iso s m hm]
    have hm2 : alistGet e.agent_id
        (ServerState.mk s.agent_metadata
          (alistSet e.agent_id
            (((alistGet e.agent_id s.execution_records).getD []) ++
              [execution_data e ts iso])
            s.execution_records)).agent_metadata = some m := hm
    rw [update_meta_get_self hm2]
    rw [show alistGet e.agent_id
        (ServerState.mk s.agent_metadata
          (alistSet e.agent_id
            (((alistGet e.agent_id s.execution_records).getD []) ++
              [execution_data e ts iso])
            s.execution_records)).execution_records =
        some (((alistGet e.agent_id s.execution_records).getD []) ++
          [execution_data e ts iso]) from alistGet_set_self _ _ _]
    simp only [Option.getD_some, Option.some_bind, updatedMeta_avg_cost]
    rw [List.filterMap_append]
    rw [show [execution_data e ts iso].filterMap (fun r => r.cost_usd) = [] from by
      simp [execution_data, hcost]]
    rw [List.append_nil]
    by_cases hc0 : ((alistGet e.agent_id s.execution_records).getD []).filterMap
        (fun r => r.cost_usd) = []
    · rw [if_pos hc0]
    · rw [if_neg hc0, hcons hc0]

/-- Concrete store for the C7 witness: agent `"a1"` with one record of
cost 2 and a consistent stored average. -/
def c7State : ServerState :=
  ⟨[("a1", ⟨"a1", "d", some 2, none⟩)],
   [("a1", [⟨"e", "t", true, none, none, none, none, some 2, none⟩])]⟩

/-- Witness for C7 at `c7State`. -/
theorem C7_witness :
    alistGet "a1" c7State.agent_metadata = some ⟨"a1", "d", some 2, none⟩ ∧
    ((alistGet "a1" (update_agent_averages "a1" c7State).agent_metadata =
      some (AgentMeta.mk (AgentMeta.id ⟨"a1", "d", some 2, none⟩)
        (AgentMeta.description ⟨"a1", "d", some 2, none⟩)
        (if (((alistGet "a1" c7State.execution_records).getD []).filterMap fun r => r.cost_usd) = []
         then AgentMeta.avg_cost ⟨"a1", "d", some 2, none⟩
         else some (pyRound
           (((((alistGet "a1" c7State.execution_records).getD []).filterMap fun r => r.cost_usd)).sum /
             (((((alistGet "a1" c7State.execution_records).getD []).filterMap fun r => r.cost_usd)).length : ℚ)) 6))
        (if (((alistGet "a1" c7State.execution_records).getD []).filterMap fun r => r.runtime_ms) = []
         then AgentMeta.avg_latency ⟨"a1", "d", some 2, none⟩
         else some (pyRound
           (((((alistGet "a1" c7State.execution_records).getD []).filterMap fun r => r.runtime_ms)).sum /
             (((((alistGet "a1" c7State.execution_records).getD []).filterMap fun r => r.runtime_ms)).length : ℚ)) 2))))
    ∧ (∀ (e : AgentExecution) (ts iso : String), e.agent_id = "a1" → e.cost_usd = none →
        ((((alistGet "a1" c7State.execution_records).getD []).filterMap fun r => r.cost_usd) ≠ [] →
          AgentMeta.avg_cost ⟨"a1", "d", some 2, none⟩ = some (pyRound
            (((((alistGet "a1" c7State.execution_records).getD []).filterMap fun r => r.cost_usd)).sum /
              (((((alistGet "a1" c7State.execution_records).getD []).filterMap fun r => r.cost_usd)).length : ℚ)) 6)) →
        ((alistGet "a1" (record_execution e ts iso c7State).agent_metadata).bind fun mm => mm.avg_cost)
          = AgentMeta.avg_cost ⟨"a1", "d", some 2, none⟩)) := by
  have hm : alistGet "a1" c7State.agent_metadata = some ⟨"a1", "d", some 2, none⟩ := by
    simp [c7State, alistGet]
  exact ⟨hm, C7_recompute_write_iff_samples c7State "a1" ⟨"a1", "d", some 2, none⟩ hm⟩

/-- C10: the `/record_execution` response echoes the caller-supplied
`execution_id` exactly; when the caller supplied none, the response field
is null even though the appended record stores the synthesized
`agent_id ++ "_" ++ timestamp` identifier. -/
theorem C10_response_echoes_execution_id (e : AgentExecution) (ts iso : String)
    (s : ServerState) :
    ((record_agent_execution e ts iso s).2).execution_id = e.execution_id
    ∧ (e.execution_id = none →
        ∃ r : ExecRecord,
          alistGet e.agent_id ((record_agent_execution e ts iso s).1).execution_records
            = some ((((alistGet e.agent_id s.execution_records).getD [])) ++ [r])
          ∧ r.execution_id = e.agent_id ++ "_" ++ ts) := by
  constructor
  · rfl
  · intro hnone
    refine ⟨execution_data e ts iso, record_execution_records_get e ts iso s, ?_⟩
    simp [execution_data, hnone]

/-- Witness for C10: recording with no caller-supplied execution id. -/
theorem C10_witness :
    ∃ r : ExecRecord,
      alistGet "a1" ((record_agent_execution { agent_id := "a1" } "t" "i"
          initState).1).execution_records
        = some ((((alistGet "a1" initState.execution_records).getD [])) ++ [r])
      ∧ r.execution_id = "a1" ++ "_" ++ "t" :=
  (C10_response_echoes_execution_id { agent_id := "a1" } "t" "i" initState).2 rfl

/-! ### C8 and C5: listing and deletion -/

theorem update_meta_get_none {k : String} {s : ServerState}
    (hm : alistGet k s.agent_metadata = none) :
    alistGet k (update_agent_averages k s).agent_metadata = none := by
  unfold update_agent_averages
  split
  · exact hm
  · rw [hm]
    exact hm

theorem update_get_congr (k : String) (s s0 : ServerState)
    (hrec : alistGet k s.execution_records = alistGet k s0.execution_records)
    (hm : alistGet k s.agent_metadata = alistGet k s0.agent_metadata) :
    alistGet k (update_agent_averages k s).agent_metadata =
      alistGet k (update_agent_averages k s0).agent_metadata := by
  cases hmm : alistGet k s.agent_metadata with
  | none =>
    rw [update_meta_get_none hmm, update_meta_get_none (hm.symm.trans hmm)]
  | some m =>
    rw [update_meta_get_self hmm, update_meta_get_self (hm.symm.trans hmm), hrec]

theorem listFold_records (keys : List String) (p : ServerState × List AgentInfo) :
    ((keys.foldl listStep p).1).execution_records = p.1.execution_records := by
  induction keys generalizing p with
  | nil => rfl
  | cons k rest ih =>
    rw [List.foldl_cons, ih]
    exact update_records_eq _ _

theorem listFold_meta_isSome (keys : List String) (p : ServerState × List AgentInfo)
    (k' : String) :
    (alistGet k' ((keys.foldl listStep p).1).agent_metadata).isSome =
      (alistGet k' p.1.agent_metadata).isSome := by
  induction keys generalizing p with
  | nil => rfl
  | cons k rest ih =>
    rw [List.foldl_cons, ih]
    exact update_meta_isSome _ _ _

theorem listFold_meta_map_fst (keys : List String) (p : ServerState × List AgentInfo) :
    ((keys.foldl listStep p).1).agent_metadata.map Prod.fst =
      p.1.agent_metadata.map Prod.fst := by
  induction keys generalizing p with
  | nil => rfl
  | cons k rest ih =>
    rw [List.foldl_cons, ih]
    exact update_meta_map_fst _ _

theorem listFold_infos (s0 : ServerState) :
    ∀ (keys : List String) (p : ServerState × List AgentInfo),
      keys.Nodup →
      p.1.execution_records = s0.execution_records →
      (∀ k ∈ keys, alistGet k p.1.agent_metadata = alistGet k s0.agent_metadata) →
      (keys.foldl listStep p).2 = p.2 ++ keys.map (infoAfterRecompute s0) := by
  intro keys
  induction keys with
  | nil =>
    intro p _ _ _
    simp
  | cons k rest ih =>
    intro p hnd hrec hmeta
    rw [List.foldl_cons]
    have hkey : alistGet k (update_agent_averages k p.1).agent_metadata =
        alistGet k (update_agent_averages k s0).agent_metadata :=
      update_get_congr k p.1 s0 (by rw [hrec]) (hmeta k (by simp))
    have hstep2 : (listStep p k).2 = p.2 ++ [infoAfterRecompute s0 k] := by
      simp only [listStep, infoAfterRecompute]
      rw [hkey]
    have hcons := List.nodup_cons.1 hnd
    rw [ih (listStep p k) hcons.2 (by rw [show (listStep p k).1 =
        update_agent_averages k p.1 from rfl, update_records_eq]; exact hrec)
      (fun k' hk' => by
        rw [show (listStep p k).1 = update_agent_averages k p.1 from rfl,
          update_meta_get_ne _ (fun h => hcons.1 (by rw [← h]; exact hk'))]
        exact hmeta k' (by simp [hk']))]
    rw [hstep2, List.map_cons]
    simp

theorem list_local_agents_eq (s : ServerState)
    (hnd : (s.agent_metadata.map Prod.fst).Nodup) :
    (list_local_agents s).2 =
      ((s.agent_metadata.map Prod.fst).map (infoAfterRecompute s)).insertionSort infoLe := by
  simp only [list_local_agents]
  rw [listFold_infos s (s.agent_metadata.map Prod.fst) (s, []) hnd rfl (fun _ _ => rfl)]
  simp

theorem infoAfterRecompute_id (s : ServerState) (k : String) (m : AgentMeta)
    (hm : alistGet k s.agent_metadata = some m) (hid : m.id = k) :
    (infoAfterRecompute s k).id = k := by
  simp only [infoAfterRecompute]
  rw [update_meta_get_self hm]
  simpa [updatedMeta_id] using hid

theorem mem_keys_exists_entry (s : ServerState) (k : String)
    (hk : k ∈ s.agent_metadata.map Prod.fst) :
    ∃ m, alistGet k s.agent_metadata = some m := by
  cases hg : alistGet k s.agent_metadata with
  | none => exact absurd ((alistGet_eq_none_iff _ _).1 hg) (by simpa using hk)
  | some m => exact ⟨m, rfl⟩

theorem list_ids_mem (s : ServerState)
    (hnd : (s.agent_metadata.map Prod.fst).Nodup)
    (hwf : ∀ p ∈ s.agent_metadata, (Prod.snd p).id = p.1) :
    ∀ info ∈ (list_local_agents s).2, info.id ∈ s.agent_metadata.map Prod.fst := by
  intro info hinfo
  rw [list_local_agents_eq s hnd, List.mem_insertionSort] at hinfo
  obtain ⟨k, hk, hkeq⟩ := List.mem_map.1 hinfo
  obtain ⟨m, hm⟩ := mem_keys_exists_entry s k hk
  rw [← hkeq, infoAfterRecompute_id s k m hm (hwf (k, m) (alistGet_mem _ _ _ hm))]
  exact hk

/-- C8: `list_local_agents` recomputes every registered agent's averages
and returns exactly one entry per registered agent, sorted by agent id
ascending (regardless of insertion order): the result is the
insertion-sorted list of the per-key recomputed projections, it is sorted
under `infoLe`, and its ids are a permutation of the registry keys. -/
theorem C8_list_agents_sorted (s : ServerState)
    (hnd : (s.agent_metadata.map Prod.fst).Nodup)
    (hwf : ∀ p ∈ s.agent_metadata, (Prod.snd p).id = p.1) :
    (list_local_agents s).2 =
      ((s.agent_metadata.map Prod.fst).map (infoAfterRecompute s)).insertionSort infoLe
    ∧ (list_local_agents s).2.Sorted infoLe
    ∧ ((list_local_agents s).2.map fun i => i.id).Perm
        (s.agent_metadata.map Prod.fst) := by
  have heq := list_local_agents_eq s hnd
  refine ⟨heq, ?_, ?_⟩
  · rw [heq]
    exact List.sorted_insertionSort infoLe _
  · rw [heq]
    have hperm := (List.perm_insertionSort infoLe
      ((s.agent_metadata.map Prod.fst).map (infoAfterRecompute s))).map fun i => i.id
    refine hperm.trans ?_
    rw [List.map_map]
    have hids : ∀ k ∈ s.agent_metadata.map Prod.fst,
        ((fun i => i.id) ∘ infoAfterRecompute s) k = k := by
      intro k hk
      obtain ⟨m, hm⟩ := mem_keys_exists_entry s k hk
      exact infoAfterRecompute_id s k m hm (hwf (k, m) (alistGet_mem _ _ _ hm))
    rw [List.map_congr_left hids, List.map_id']

/-- Concrete store for the C8 witness: two agents inserted in reverse
alphabetical order. -/
def c8State : ServerState :=
  ⟨[("b", ⟨"b", "B", none, none⟩), ("a", ⟨"a", "A", none, none⟩)], []⟩

/-- Witness for C8 at `c8State`. -/
theorem C8_witness :
    (c8State.agent_metadata.map Prod.fst).Nodup ∧
    (∀ p ∈ c8State.agent_metadata, (Prod.snd p).id = p.1) ∧
    ((list_local_agents c8State).2 =
      ((c8State.agent_metadata.map Prod.fst).map (infoAfterRecompute c8State)).insertionSort infoLe
    ∧ (list_local_agents c8State).2.Sorted infoLe
    ∧ ((list_local_agents c8State).2.map fun i => i.id).Perm
        (c8State.agent_metadata.map Prod.fst)) := by
  have hnd : (c8State.agent_metadata.map Prod.fst).Nodup := by
    simp [c8State]
  have hwf : ∀ p ∈ c8State.agent_metadata, (Prod.snd p).id = p.1 := by
    intro p hp
    simp only [c8State, List.mem_cons, List.not_mem_nil, or_false] at hp
    rcases hp with hp | hp <;> subst hp <;> rfl
  exact ⟨hnd, hwf, C8_list_agents_sorted c8State hnd hwf⟩

/-- C5: deleting an unknown agent fails with 404 and changes nothing;
deleting a known agent removes it from both stores in one step (no partial
state), after which it is absent from `list_local_agents` and its usage
query fails with 404. -/
theorem C5_delete_agent (a : String) (s : ServerState)
    (hndm : (s.agent_metadata.map Prod.fst).Nodup)
    (hndr : (s.execution_records.map Prod.fst).Nodup)
    (hwf : ∀ p ∈ s.agent_metadata, (Prod.snd p).id = p.1) :
    (alistGet a s.agent_metadata = none →
      delete_agent a s =
        (s, Except.error ⟨404, "Agent " ++ a ++ " not found in inventory"⟩))
    ∧ ((alistGet a s.agent_metadata).isSome →
        alistGet a ((delete_agent a s).1).agent_metadata = none
        ∧ alistGet a ((delete_agent a s).1).execution_records = none
        ∧ (delete_agent a s).2 =
            Except.ok ⟨"success", "Agent " ++ a ++ " and all its records deleted"⟩
        ∧ (∀ info ∈ (list_local_agents ((delete_agent a s).1)).2, info.id ≠ a)
        ∧ (∃ err, get_agent_usage_internal a ((delete_agent a s).1) = Except.error err
            ∧ err.status_code = 404)) := by
  constructor
  · intro hm
    unfold delete_agent
    rw [if_pos (by rw [hm]; rfl)]
  · intro hm
    obtain ⟨m, hm'⟩ := Option.isSome_iff_exists.1 hm
    have hmeta' : alistGet a (alistErase a s.agent_metadata) = none :=
      alistGet_erase_self _ _ hndm
    have hnd' : ((alistErase a s.agent_metadata).map Prod.fst).Nodup :=
      hndm.sublist (alistErase_map_fst_sublist a s.agent_metadata)
    have hwf' : ∀ p ∈ alistErase a s.agent_metadata, (Prod.snd p).id = p.1 :=
      fun p hp => hwf p (alistErase_mem _ _ _ hp)
    have hnotin : a ∉ (alistErase a s.agent_metadata).map Prod.fst :=
      (alistGet_eq_none_iff _ _).1 hmeta'
    cases hrec : alistGet a s.execution_records with
    | some R =>
      have hdel : delete_agent a s =
          (⟨alistErase a s.agent_metadata, alistErase a s.execution_records⟩,
           Except.ok ⟨"success", "Agent " ++ a ++ " and all its records deleted"⟩) := by
        simp only [delete_agent, hm', Option.isNone_some, Bool.false_eq_true, if_false,
          hrec, Option.isSome_some, if_true]
      rw [hdel]
      refine ⟨hmeta', alistGet_erase_self _ _ hndr, rfl, fun info hinfo => ?_, ?_⟩
      · have hidmem := list_ids_mem
          ⟨alistErase a s.agent_metadata, alistErase a s.execution_records⟩ hnd' hwf'
          info hinfo
        intro hEq
        rw [hEq] at hidmem
        exact hnotin hidmem
      · exact ⟨⟨404, "Agent " ++ a ++ " not found in inventory"⟩,
          by simp [get_agent_usage_internal, hmeta'], rfl⟩
    | none =>
      have hdel : delete_agent a s =
          (⟨alistErase a s.agent_metadata, s.execution_records⟩,
           Except.ok ⟨"success", "Agent " ++ a ++ " and all its records deleted"⟩) := by
        simp only [delete_agent, hm', Option.isNone_some, Bool.false_eq_true, if_false,
          hrec, Option.isSome_none, if_false]
      rw [hdel]
      refine ⟨hmeta', hrec, rfl, fun info hinfo => ?_, ?_⟩
      · have hidmem := list_ids_mem
          ⟨alistErase a s.agent_metadata, s.execution_records⟩ hnd' hwf' info hinfo
        intro hEq
        rw [hEq] at hidmem
        exact hnotin hidmem
      · exact ⟨⟨404, "Agent " ++ a ++ " not found in inventory"⟩,
          by simp [get_agent_usage_internal, hmeta'], rfl⟩

/-- Concrete store for the C5 witness: agent `"a1"` with one record. -/
def c5State : ServerState :=
  ⟨[("a1", ⟨"a1", "d", none, none⟩)],
   [("a1", [⟨"e", "t", true, some 1, none, none, none, none, none⟩])]⟩

/-- Witness for C5 at `c5State`. -/
theorem C5_witness :
    (c5State.agent_metadata.map Prod.fst).Nodup ∧
    (c5State.execution_records.map Prod.fst).Nodup ∧
    (∀ p ∈ c5State.agent_metadata, (Prod.snd p).id = p.1) ∧
    ((alistGet "a1" c5State.agent_metadata).isSome →
        alistGet "a1" ((delete_agent "a1" c5State).1).agent_metadata = none
        ∧ alistGet "a1" ((delete_agent "a1" c5State).1).execution_records = none
        ∧ (delete_agent "a1" c5State).2 =
            Except.ok ⟨"success", "Agent " ++ "a1" ++ " and all its records deleted"⟩
        ∧ (∀ info ∈ (list_local_agents ((delete_agent "a1" c5State).1)).2, info.id ≠ "a1")
        ∧ (∃ err, get_agent_usage_internal "a1" ((delete_agent "a1" c5State).1) =
              Except.error err ∧ err.status_code = 404)) := by
  have hndm : (c5State.agent_metadata.map Prod.fst).Nodup := by simp [c5State]
  have hndr : (c5State.execution_records.map Prod.fst).Nodup := by simp [c5State]
  have hwf : ∀ p ∈ c5State.agent_metadata, (Prod.snd p).id = p.1 := by
    intro p hp
    simp only [c5State, List.mem_cons, List.not_mem_nil, or_false] at hp
    subst hp
    rfl
  exact ⟨hndm, hndr, hwf, (C5_delete_agent "a1" c5State hndm hndr hwf).2⟩

/-! ### C9: registry-presence invariant over traces -/

theorem record_execution_meta_none (e : AgentExecution) (ts iso : String)
    (s : ServerState)
    (hm : alistGet e.agent_id s.agent_metadata = none) :
    record_execution e ts iso s =
      update_agent_averages e.agent_id
        (ServerState.mk
          (alistSet e.agent_id ⟨e.agent_id, "Agent " ++ e.agent_id, none, none⟩
            s.agent_metadata)
          (alistSet e.agent_id
            (((alistGet e.agent_id s.execution_records).getD []) ++
              [execution_data e ts iso])
            s.execution_records)) := by
  simp only [record_execution]
  cases hr : alistGet e.agent_id s.execution_records with
  | none => simp [hm, hr, alistGet_set_self, alistSet_set]
  | some R => simp [hm, hr]

theorem record_meta_isSome (e : AgentExecution) (ts iso : String) (s : ServerState)
    (a : String) :
    (alistGet a (record_execution e ts iso s).agent_metadata).isSome =
      ((alistGet a s.agent_metadata).isSome || decide (e.agent_id = a)) := by
  by_cases hid : e.agent_id = a
  · subst hid
    cases hm : alistGet e.agent_id s.agent_metadata with
    | none =>
      rw [record_execution_meta_none e ts iso s hm, update_meta_isSome]
      simp [alistGet_set_self]
    | some m =>
      rw [record_execution_meta_some e ts iso s m hm, update_meta_isSome]
      simp [hm]
  · have hne : a ≠ e.agent_id := fun h => hid h.symm
    cases hm : alistGet e.agent_id s.agent_metadata with
    | none =>
      rw [record_execution_meta_none e ts iso s hm, update_meta_isSome]
      rw [show (ServerState.mk
          (alistSet e.agent_id (⟨e.agent_id, "Agent " ++ e.agent_id, none, none⟩ : AgentMeta)
            s.agent_metadata)
          (alistSet e.agent_id
            (((alistGet e.agent_id s.execution_records).getD []) ++
              [execution_data e ts iso])
            s.execution_records)).agent_metadata =
        alistSet e.agent_id (⟨e.agent_id, "Agent " ++ e.agent_id, none, none⟩ : AgentMeta)
          s.agent_metadata from rfl]
      rw [alistGet_set_ne _ _ hne]
      simp [hid]
    | some m =>
      rw [record_execution_meta_some e ts iso s m hm, update_meta_isSome]
      simp [hid]

theorem record_records_ne (e : AgentExecution) (ts iso : String) (s : ServerState)
    (a : String) (hne : a ≠ e.agent_id) :
    alistGet a (record_execution e ts iso s).execution_records =
      alistGet a s.execution_records := by
  simp only [record_execution, update_records_eq]
  by_cases hmeta : (alistGet e.agent_id s.agent_metadata).isSome <;>
    cases hr : alistGet e.agent_id s.execution_records <;>
      simp [hmeta, hr, alistGet_set_ne _ _ hne]

theorem register_meta_isSome (m : AgentMeta) (s : ServerState) (a : String) :
    (alistGet a (register_agent m s).agent_metadata).isSome =
      ((alistGet a s.agent_metadata).isSome || decide (m.id = a)) := by
  have hreg : register_agent m s = update_agent_averages m.id
      (ServerState.mk
        (alistSet m.id (⟨m.id, m.description, m.avg_cost, m.avg_latency⟩ : AgentMeta)
          s.agent_metadata)
        s.execution_records) := rfl
  rw [hreg, update_meta_isSome]
  by_cases hid : m.id = a
  · subst hid
    simp [alistGet_set_self]
  · rw [show (ServerState.mk
        (alistSet m.id (⟨m.id, m.description, m.avg_cost, m.avg_latency⟩ : AgentMeta)
          s.agent_metadata)
        s.execution_records).agent_metadata =
      alistSet m.id (⟨m.id, m.description, m.avg_cost, m.avg_latency⟩ : AgentMeta)
        s.agent_metadata from rfl]
    rw [alistGet_set_ne _ _ (fun h => hid h.symm)]
    simp [hid]

theorem register_records_eq (m : AgentMeta) (s : ServerState) :
    (register_agent m s).execution_records = s.execution_records := by
  rw [show register_agent m s = update_agent_averages m.id
      (ServerState.mk
        (alistSet m.id (⟨m.id, m.description, m.avg_cost, m.avg_latency⟩ : AgentMeta)
          s.agent_metadata)
        s.execution_records) from rfl, update_records_eq]

theorem delete_meta_isSome (a' : String) (s : ServerState) (a : String)
    (hnd : (s.agent_metadata.map Prod.fst).Nodup) :
    (alistGet a ((delete_agent a' s).1).agent_metadata).isSome =
      (if a' = a then false else (alistGet a s.agent_metadata).isSome) := by
  cases hm : alistGet a' s.agent_metadata with
  | none =>
    rw [show (delete_agent a' s).1 = s from by simp [delete_agent, hm]]
    by_cases hid : a' = a
    · subst hid
      simp [hm]
    · rw [if_neg hid]
  | some m =>
    have hdel1 : ((delete_agent a' s).1).agent_metadata =
        alistErase a' s.agent_metadata := by
      cases hr : alistGet a' s.execution_records with
      | none => simp [delete_agent, hm, hr]
      | some R => simp [delete_agent, hm, hr]
    rw [hdel1]
    by_cases hid : a' = a
    · subst hid
      simp [alistGet_erase_self _ _ hnd]
    · rw [if_neg hid, alistGet_erase_ne _ (fun h => hid h.symm)]

/-- Keys of both stores stay duplicate-free through every operation. -/
def StateWF (s : ServerState) : Prop :=
  (s.agent_metadata.map Prod.fst).Nodup ∧ (s.execution_records.map Prod.fst).Nodup

theorem record_WF (e : AgentExecution) (ts iso : String) (s : ServerState)
    (h : StateWF s) : StateWF (record_execution e ts iso s) := by
  cases hm : alistGet e.agent_id s.agent_metadata with
  | none =>
    rw [record_execution_meta_none e ts iso s hm]
    exact ⟨by rw [update_meta_map_fst]; exact alistSet_nodup_fst _ _ _ h.1,
      by rw [update_records_eq]; exact alistSet_nodup_fst _ _ _ h.2⟩
  | some m =>
    rw [record_execution_meta_some e ts iso s m hm]
    exact ⟨by rw [update_meta_map_fst]; exact h.1,
      by rw [update_records_eq]; exact alistSet_nodup_fst _ _ _ h.2⟩

theorem register_WF (m : AgentMeta) (s : ServerState) (h : StateWF s) :
    StateWF (register_agent m s) := by
  refine ⟨?_, by rw [register_records_eq]; exact h.2⟩
  rw [show register_agent m s = update_agent_averages m.id
      (ServerState.mk
        (alistSet m.id (⟨m.id, m.description, m.avg_cost, m.avg_latency⟩ : AgentMeta)
          s.agent_metadata)
        s.execution_records) from rfl, update_meta_map_fst]
  exact alistSet_nodup_fst _ _ _ h.1

theorem delete_WF (a : String) (s : ServerState) (h : StateWF s) :
    StateWF ((delete_agent a s).1) := by
  cases hm : alistGet a s.agent_metadata with
  | none =>
    rw [show (delete_agent a s).1 = s from by simp [delete_agent, hm]]
    exact h
  | some m =>
    cases hr : alistGet a s.execution_records with
    | none =>
      rw [show (delete_agent a s).1 =
        ⟨alistErase a s.agent_metadata, s.execution_records⟩ from by
          simp [delete_agent, hm, hr]]
      exact ⟨h.1.sublist (alistErase_map_fst_sublist _ _), h.2⟩
    | some R =>
      rw [show (delete_agent a s).1 =
        ⟨alistErase a s.agent_metadata, alistErase a s.execution_records⟩ from by
          simp [delete_agent, hm, hr]]
      exact ⟨h.1.sublist (alistErase_map_fst_sublist _ _),
        h.2.sublist (alistErase_map_fst_sublist _ _)⟩

theorem list_WF (s : ServerState) (h : StateWF s) : StateWF ((list_local_agents s).1) := by
  constructor
  · rw [show (list_local_agents s).1 =
      ((s.agent_metadata.map Prod.fst).foldl listStep (s, [])).1 from rfl,
      listFold_meta_map_fst]
    exact h.1
  · rw [show (list_local_agents s).1 =
      ((s.agent_metadata.map Prod.fst).foldl listStep (s, [])).1 from rfl,
      listFold_records]
    exact h.2

theorem applyOp_WF (s : ServerState) (op : Op) (h : StateWF s) : StateWF (applyOp s op) := by
  cases op with
  | record e ts iso => exact record_WF e ts iso s h
  | register m => exact register_WF m s h
  | usage x => exact h
  | listAgents => exact list_WF s h
  | delete a => exact delete_WF a s h

theorem runOps_WF (ops : List Op) : StateWF (runOps initState ops) := by
  induction ops using List.reverseRecOn with
  | nil => exact ⟨List.nodup_nil, List.nodup_nil⟩
  | append_singleton ops op ih =>
    rw [runOps, List.foldl_append]
    simp only [List.foldl_cons, List.foldl_nil]
    exact applyOp_WF _ op ih

theorem registry_eq_active (a : String) (ops : List Op) :
    (alistGet a (runOps initState ops).agent_metadata).isSome = activeAfter a ops := by
  induction ops using List.reverseRecOn with
  | nil => rfl
  | append_singleton ops op ih =>
    rw [runOps, List.foldl_append, activeAfter, List.foldl_append]
    simp only [List.foldl_cons, List.foldl_nil]
    rw [show List.foldl applyOp initState ops = runOps initState ops from rfl,
      show List.foldl (activeStep a) false ops = activeAfter a ops from rfl]
    cases op with
    | record e ts iso =>
      rw [show applyOp (runOps initState ops) (Op.record e ts iso) =
        record_execution e ts iso (runOps initState ops) from rfl,
        record_meta_isSome, ih]
      rfl
    | register m =>
      rw [show applyOp (runOps initState ops) (Op.register m) =
        register_agent m (runOps initState ops) from rfl,
        register_meta_isSome, ih]
      rfl
    | usage x => simpa using ih
    | listAgents =>
      rw [show applyOp (runOps initState ops) Op.listAgents =
        (list_local_agents (runOps initState ops)).1 from rfl,
        show (list_local_agents (runOps initState ops)).1 =
          (((runOps initState ops).agent_metadata.map Prod.fst).foldl listStep
            (runOps initState ops, [])).1 from rfl,
        listFold_meta_isSome, ih]
      rfl
    | delete a' =>
      rw [show applyOp (runOps initState ops) (Op.delete a') =
        (delete_agent a' (runOps initState ops)).1 from rfl,
        delete_meta_isSome a' (runOps initState ops) a (runOps_WF ops).1, ih]
      rfl

/-- Every agent id with a non-empty ledger entry has a registry entry. -/
def LedgerInv (s : ServerState) : Prop :=
  ∀ a recs, alistGet a s.execution_records = some recs → recs ≠ [] →
    (alistGet a s.agent_metadata).isSome = true

theorem record_LedgerInv (e : AgentExecution) (ts iso : String) (s : ServerState)
    (h : LedgerInv s) : LedgerInv (record_execution e ts iso s) := by
  intro a recs hrec hne
  rw [record_meta_isSome]
  by_cases hid : e.agent_id = a
  · simp [hid]
  · rw [record_records_ne e ts iso s a (fun hh => hid hh.symm)] at hrec
    simp [h a recs hrec hne]

theorem register_LedgerInv (m : AgentMeta) (s : ServerState)
    (h : LedgerInv s) : LedgerInv (register_agent m s) := by
  intro a recs hrec hne
  rw [register_meta_isSome]
  rw [register_records_eq] at hrec
  simp [h a recs hrec hne]

theorem list_LedgerInv (s : ServerState) (h : LedgerInv s) :
    LedgerInv ((list_local_agents s).1) := by
  intro a recs hrec hne
  rw [show (list_local_agents s).1 =
    ((s.agent_metadata.map Prod.fst).foldl listStep (s, [])).1 from rfl] at hrec ⊢
  rw [listFold_meta_isSome]
  rw [listFold_records] at hrec
  exact h a recs hrec hne

theorem delete_LedgerInv (a' : String) (s : ServerState) (hwf : StateWF s)
    (h : LedgerInv s) : LedgerInv ((delete_agent a' s).1) := by
  intro a recs hrec hne
  cases hm : alistGet a' s.agent_metadata with
  | none =>
    rw [show (delete_agent a' s).1 = s from by simp [delete_agent, hm]] at hrec ⊢
    exact h a recs hrec hne
  | some m =>
    by_cases hid : a' = a
    · subst hid
      cases hr : alistGet a' s.execution_records with
      | none =>
        rw [show (delete_agent a' s).1 =
          ⟨alistErase a' s.agent_metadata, s.execution_records⟩ from by
            simp [delete_agent, hm, hr]] at hrec
        rw [show (⟨alistErase a' s.agent_metadata, s.execution_records⟩ :
          ServerState).execution_records = s.execution_records from rfl, hr] at hrec
        cases hrec
      | some R =>
        rw [show (delete_agent a' s).1 =
          ⟨alistErase a' s.agent_metadata, alistErase a' s.execution_records⟩ from by
            simp [delete_agent, hm, hr]] at hrec
        rw [show (⟨alistErase a' s.agent_metadata, alistErase a' s.execution_records⟩ :
          ServerState).execution_records = alistErase a' s.execution_records from rfl,
          alistGet_erase_self _ _ hwf.2] at hrec
        cases hrec
    · have hne' : a ≠ a' := fun hh => hid hh.symm
      cases hr : alistGet a' s.execution_records with
      | none =>
        rw [show (delete_agent a' s).1 =
          ⟨alistErase a' s.agent_metadata, s.execution_records⟩ from by
            simp [delete_agent, hm, hr]] at hrec ⊢
        rw [show (⟨alistErase a' s.agent_metadata, s.execution_records⟩ :
          ServerState).execution_records = s.execution_records from rfl] at hrec
        rw [show (⟨alistErase a' s.agent_metadata, s.execution_records⟩ :
          ServerState).agent_metadata = alistErase a' s.agent_metadata from rfl,
          alistGet_erase_ne _ hne']
        exact h a recs hrec hne
      | some R =>
        rw [show (delete_agent a' s).1 =
          ⟨alistErase a' s.agent_metadata, alistErase a' s.execution_records⟩ from by
            simp [delete_agent, hm, hr]] at hrec ⊢
        rw [show (⟨alistErase a' s.agent_metadata, alistErase a' s.execution_records⟩ :
          ServerState).execution_records = alistErase a' s.execution_records from rfl,
          alistGet_erase_ne _ hne'] at hrec
        rw [show (⟨alistErase a' s.agent_metadata, alistErase a' s.execution_records⟩ :
          ServerState).agent_metadata = alistErase a' s.agent_metadata from rfl,
          alistGet_erase_ne _ hne']
        exact h a recs hrec hne

theorem runOps_LedgerInv (ops : List Op) : LedgerInv (runOps initState ops) := by
  induction ops using List.reverseRecOn with
  | nil => intro a recs hrec _; cases hrec
  | append_singleton ops op ih =>
    rw [runOps, List.foldl_append]
    simp only [List.foldl_cons, List.foldl_nil]
    rw [show List.foldl applyOp initState ops = runOps initState ops from rfl]
    cases op with
    | record e ts iso => exact record_LedgerInv e ts iso _ ih
    | register m => exact register_LedgerInv m _ ih
    | usage x => exact ih
    | listAgents => exact list_LedgerInv _ ih
    | delete a' => exact delete_LedgerInv a' _ (runOps_WF ops) ih

/-- Counterexample to C9 as stated: after the trace that registers agent
`"a"` and then deletes it, the agent WAS explicitly registered at some
point in the sequence, yet no record for it exists in the registry — the
claimed "if and only if" fails in the right-to-left direction. -/
theorem C9_counterexample :
    everRegisteredOrRecorded "a"
      [Op.register ⟨"a", "d", none, none⟩, Op.delete "a"] = true
    ∧ (alistGet "a" (runOps initState
        [Op.register ⟨"a", "d", none, none⟩, Op.delete "a"]).agent_metadata).isSome
        = false := by
  constructor
  · rfl
  · rfl

/-- C9 (amended): in every reachable state, an agent record exists in the
registry if and only if the agent was explicitly registered or had an
execution recorded SINCE ITS MOST RECENT DELETION (`activeAfter`); and
every identifier with a non-empty execution-ledger entry is present in the
registry. -/
theorem C9_registry_presence (ops : List Op) (a : String) :
    (alistGet a (runOps initState ops).agent_metadata).isSome = activeAfter a ops
    ∧ (∀ recs, alistGet a (runOps initState ops).execution_records = some recs →
        recs ≠ [] → (alistGet a (runOps initState ops).agent_metadata).isSome = true) :=
  ⟨registry_eq_active a ops, fun recs h1 h2 => runOps_LedgerInv ops a recs h1 h2⟩

/-- Witness for C9 on the one-record trace. -/
theorem C9_witness :
    (alistGet "a1" (runOps initState
        [Op.record { agent_id := "a1" } "t" "i"]).agent_metadata).isSome
      = activeAfter "a1" [Op.record { agent_id := "a1" } "t" "i"]
    ∧ (alistGet "a1" (runOps initState
        [Op.record { agent_id := "a1" } "t" "i"]).agent_metadata).isSome = true := by
  have h := C9_registry_presence [Op.record { agent_id := "a1" } "t" "i"] "a1"
  exact ⟨h.1, h.2 ([] ++ [execution_data { agent_id := "a1" } "t" "i"])
    (record_execution_records_get { agent_id := "a1" } "t" "i" initState) (by simp)⟩
